import Mathlib

/-!
Verification of the positions-dashboard core (`src/streamlit_dash_.py`)
against its natural-language specification.

The embedding below translates the heuristic spreadsheet parser
(`fetch_market_data`), the numeric coercion (`clean_float`), and the
Monitor-tab PnL pass into Lean.  Python floats are idealised as an
extended-rational type `PyFloat` (exact rationals plus the IEEE special
values `inf`, `-inf`, `nan`); binary64 rounding and signed zero are not
modelled, and no claim below depends on them.  Raw spreadsheet cells are
an opaque scalar type `RawCell`: a number, a string, a NaN cell (how a
blank arrives from the static pandas path), or a Python `None` (how a
blank arrives from the live path).
-/

/-- A raw spreadsheet cell as seen by the parser: number, string,
float NaN (pandas blank), or Python `None` (xlwings blank). -/
inductive RawCell where
  | num (q : ℚ)
  | str (s : String)
  | nanv
  | null
deriving DecidableEq

/-- Idealised Python float: exact finite rationals plus the special
values.  Binary64 rounding is not modelled. -/
inductive PyFloat where
  | finite (q : ℚ)
  | inf
  | negInf
  | nan
deriving DecidableEq

def PyFloat.isFinite : PyFloat → Bool
  | .finite _ => true
  | _ => false

def PyFloat.neg : PyFloat → PyFloat
  | .finite q => .finite (-q)
  | .inf => .negInf
  | .negInf => .inf
  | .nan => .nan

/-- Python `x + y` with IEEE special-value propagation. -/
def PyFloat.add : PyFloat → PyFloat → PyFloat
  | .nan, _ => .nan
  | _, .nan => .nan
  | .inf, .negInf => .nan
  | .negInf, .inf => .nan
  | .inf, _ => .inf
  | _, .inf => .inf
  | .negInf, _ => .negInf
  | _, .negInf => .negInf
  | .finite a, .finite b => .finite (a + b)

/-- Python `x - y`. -/
def PyFloat.sub (a b : PyFloat) : PyFloat := a.add b.neg

/-- Python `x * y` with IEEE special-value propagation. -/
def PyFloat.mul : PyFloat → PyFloat → PyFloat
  | .nan, _ => .nan
  | _, .nan => .nan
  | .finite a, .finite b => .finite (a * b)
  | .finite a, .inf => if 0 < a then .inf else if a < 0 then .negInf else .nan
  | .finite a, .negInf => if 0 < a then .negInf else if a < 0 then .inf else .nan
  | .inf, .finite b => if 0 < b then .inf else if b < 0 then .negInf else .nan
  | .negInf, .finite b => if 0 < b then .negInf else if b < 0 then .inf else .nan
  | .inf, .inf => .inf
  | .inf, .negInf => .negInf
  | .negInf, .inf => .negInf
  | .negInf, .negInf => .inf

/-! ### String helpers

`hasSub hay needle` models Python's `needle in hay` on strings
(contiguous-substring containment). -/

def startsWithL : List Char → List Char → Bool
  | [], _ => true
  | _ :: _, [] => false
  | a :: as, b :: bs => a == b && startsWithL as bs

def hasSubAux (needle : List Char) : List Char → Bool
  | [] => needle.isEmpty
  | c :: t => startsWithL needle (c :: t) || hasSubAux needle t

def hasSub (hay needle : String) : Bool := hasSubAux needle.toList hay.toList

/-- Python `str.lower()` (ASCII; the keywords involved are ASCII). -/
def lowerStr (s : String) : String := String.mk (s.data.map Char.toLower)

def isSpaceChar (c : Char) : Bool :=
  c == ' ' || c == '\t' || c == '\n' || c == '\r' || c == '\x0b' || c == '\x0c'

/-- Python `str.strip()` with no argument: whitespace removed from both ends. -/
def trimStr (s : String) : String :=
  String.mk (((s.data.dropWhile isSpaceChar).reverse.dropWhile isSpaceChar).reverse)

/-! ### Python `str()` of a cell

Numeric cells print as decimals when the denominator divides a power of
ten (the only case arising from spreadsheet binary64 values); the `p/q`
fallback is unreachable for such cells.  Scientific notation for very
large/small magnitudes is not modelled; no claim depends on it. -/

def decExp? (d : ℕ) : Option ℕ :=
  (List.range 65).find? (fun k => 10 ^ k % d == 0)

def padZeros (k : ℕ) (s : String) : String :=
  String.mk (List.replicate (k - s.length) '0') ++ s

def ratStr (q : ℚ) : String :=
  let sign := if q.num < 0 then "-" else ""
  match decExp? q.den with
  | some k =>
    if k == 0 then sign ++ toString q.num.natAbs ++ ".0"
    else
      let n := q.num.natAbs * (10 ^ k / q.den)
      sign ++ toString (n / 10 ^ k) ++ "." ++ padZeros k (toString (n % 10 ^ k))
  | Option.none => sign ++ toString q.num.natAbs ++ "/" ++ toString q.den

/-- Python `str(x)` of a raw cell: `str(nan) = "nan"`, `str(None) = "None"`. -/
def cellStr : RawCell → String
  | .num q => ratStr q
  | .str s => s
  | .nanv => "nan"
  | .null => "None"

/-! ### Python `float(str)` parsing

Models `float()` on strings: optional surrounding whitespace, optional
sign, then either a decimal literal (`123`, `1.`, `.5`, `1e-3`) or a
case-insensitive `inf`/`infinity`/`nan`.  Underscore digit separators
are not modelled. -/

def digitsOnly (l : List Char) : Bool := l.all Char.isDigit

def digitsToNat (l : List Char) : ℕ :=
  l.foldl (fun a c => a * 10 + (c.toNat - 48)) 0

def splitFirst (p : Char → Bool) : List Char → Option (List Char × List Char)
  | [] => Option.none
  | c :: t =>
    if p c then some ([], t)
    else match splitFirst p t with
      | some (a, b) => some (c :: a, b)
      | Option.none => Option.none

def parseMantissa (cs : List Char) : Option ℚ :=
  match splitFirst (fun c => c == '.') cs with
  | Option.none =>
    if cs ≠ [] ∧ digitsOnly cs then some ((digitsToNat cs : ℚ)) else Option.none
  | some (a, b) =>
    if (a ≠ [] ∨ b ≠ []) ∧ digitsOnly a ∧ digitsOnly b then
      some ((digitsToNat a : ℚ) + (digitsToNat b : ℚ) / ((10 : ℚ) ^ b.length))
    else Option.none

def parseExp (cs : List Char) : Option ℤ :=
  match cs with
  | '+' :: r => if r ≠ [] ∧ digitsOnly r then some ((digitsToNat r : ℤ)) else Option.none
  | '-' :: r => if r ≠ [] ∧ digitsOnly r then some (-(digitsToNat r : ℤ)) else Option.none
  | r => if r ≠ [] ∧ digitsOnly r then some ((digitsToNat r : ℤ)) else Option.none

def parseDecimal (cs : List Char) : Option ℚ :=
  match splitFirst (fun c => c == 'e' || c == 'E') cs with
  | Option.none => parseMantissa cs
  | some (m, e) =>
    match parseMantissa m, parseExp e with
    | some mq, some eq' => some (mq * (10 : ℚ) ^ eq')
    | _, _ => Option.none

/-- Python `float(s)` on a string, `Option.none` when it would raise. -/
def pyFloat? (s : String) : Option PyFloat :=
  let cs := (trimStr s).toList
  let signBody : Bool × List Char :=
    match cs with
    | '+' :: r => (false, r)
    | '-' :: r => (true, r)
    | r => (false, r)
  let neg := signBody.1
  let body := signBody.2
  let low := body.map Char.toLower
  if low = "inf".toList ∨ low = "infinity".toList then
    some (if neg then .negInf else .inf)
  else if low = "nan".toList then some .nan
  else
    match parseDecimal body with
    | some q => some (.finite (if neg then -q else q))
    | Option.none => Option.none

/-- `clean_float` from the source:
```
def clean_float(x):
    try:
        return float(x)
    except:
        return 0.0
```
`float` of a number is that number, of a NaN cell is NaN (no exception),
of `None` raises `TypeError` (caught, giving `0.0`), and of a string is
the parse above, `0.0` when the parse raises. -/
def clean_float : RawCell → PyFloat
  | .num q => .finite q
  | .nanv => .nan
  | .null => .finite 0
  | .str s => (pyFloat? s).getD (.finite 0)

/-! ### The raw grid and the header locator (source lines 90-104)

The grid is the raw region handed over by the Raw Table Fetcher: a list
of rows of raw cells.  The loop
```
for i in range(15):
    row_vals = [str(x) for x in df_raw.iloc[i].values]
    if "Outrights" in row_vals or "Spread" in row_vals:
        header_row_idx = i; break
```
tests exact, case-sensitive membership of the two literal tokens among
the string-cast cells.  `df_raw.iloc[i]` on a grid with fewer than
`i + 1` rows raises `IndexError`, which the enclosing `try` turns into
an empty catalog plus the exception's message. -/

abbrev Row := List RawCell
abbrev Grid := List Row

def headerNotFoundMsg : String := "Could not find \x27Outrights\x27 header row."

def indexErrMsg : String := "single positional indexer is out-of-bounds"

def headerMatch (row : Row) : Bool :=
  (row.map cellStr).contains "Outrights" || (row.map cellStr).contains "Spread"

def findHeaderFrom (grid : Grid) (i : ℕ) : ℕ → Except String ℕ
  | 0 => .error headerNotFoundMsg
  | fuel + 1 =>
    match grid[i]? with
    | Option.none => .error indexErrMsg
    | some row => if headerMatch row then .ok i else findHeaderFrom grid (i + 1) fuel

def findHeader (grid : Grid) : Except String ℕ := findHeaderFrom grid 0 15

/-! ### The column mapper (source lines 106-146)

Seven column indices, `-1` meaning unresolved, exactly as in the
source's `cols` dictionary.  `colsStep` is one iteration of the header
scan; note that within one iteration the spread/fly name field is
updated before the corresponding last field is tested, as in the
source. -/

@[ext]
structure Cols where
  out_name : ℤ
  out_last : ℤ
  out_tv : ℤ
  spd_name : ℤ
  spd_last : ℤ
  fly_name : ℤ
  fly_last : ℤ
deriving DecidableEq

def initCols : Cols := ⟨-1, -1, -1, -1, -1, -1, -1⟩

def outNameP (i : ℕ) (h : String) : Bool :=
  decide (i < 10) && (hasSub (lowerStr h) "outright" || hasSub (lowerStr h) "symbol")

def outLastP (i : ℕ) (h : String) : Bool :=
  decide (i < 10) && (hasSub (lowerStr h) "last" || hasSub (lowerStr h) "price")

def outTvP (i : ℕ) (h : String) : Bool :=
  decide (i < 15) && hasSub (lowerStr h) "tick value"

def spdNameP (i : ℕ) (h : String) : Bool :=
  decide (10 < i) && decide (i < 20) && hasSub (lowerStr h) "spread"

def spdLastP (i : ℕ) (h : String) : Bool :=
  decide (10 < i) && decide (i < 25) && (hasSub (lowerStr h) "last" || hasSub (lowerStr h) "ltp")

def flyNameP (i : ℕ) (h : String) : Bool :=
  decide (20 < i) && hasSub (lowerStr h) "fly"

def flyLastP (i : ℕ) (h : String) : Bool :=
  decide (20 < i) && (hasSub (lowerStr h) "last" || hasSub (lowerStr h) "ltp")

def colsStep (i : ℕ) (c : Cols) (h : String) : Cols :=
  let on' := if outNameP i h then (i : ℤ) else c.out_name
  let ol' := if outLastP i h && (c.out_last == -1) then (i : ℤ) else c.out_last
  let tv' := if outTvP i h then (i : ℤ) else c.out_tv
  let sn' := if spdNameP i h && (c.spd_name == -1) then (i : ℤ) else c.spd_name
  let sl' := if spdLastP i h && (c.spd_last == -1) && decide ((i : ℤ) > sn') then (i : ℤ) else c.spd_last
  let fn' := if flyNameP i h && (c.fly_name == -1) then (i : ℤ) else c.fly_name
  let fl' := if flyLastP i h && (c.fly_last == -1) && decide ((i : ℤ) > fn') then (i : ℤ) else c.fly_last
  ⟨on', ol', tv', sn', sl', fn', fl'⟩

def mapColsGo (i : ℕ) (c : Cols) : List String → Cols
  | [] => c
  | h :: t => mapColsGo (i + 1) (colsStep i c h) t

def mapCols (headers : List String) : Cols := mapColsGo 0 initCols headers

/-- Source lines 137-146: hard-coded fallbacks for any field left `-1`. -/
def applyFallbacks (c : Cols) : Cols :=
  { out_name := if c.out_name == -1 then 1 else c.out_name
    out_last := if c.out_last == -1 then 3 else c.out_last
    out_tv := if c.out_tv == -1 then 14 else c.out_tv
    spd_name := if c.spd_name == -1 then 13 else c.spd_name
    spd_last := if c.spd_last == -1 then 14 else c.spd_last
    fly_name := if c.fly_name == -1 then 25 else c.fly_name
    fly_last := if c.fly_last == -1 then 26 else c.fly_last }

def fallbackCols : Cols := ⟨1, 3, 14, 13, 14, 25, 26⟩

/-- `-1`-valued first hit of an indexed predicate, starting at index `i`. -/
def firstHitFrom (p : ℕ → String → Bool) (i : ℕ) : List String → ℤ
  | [] => -1
  | h :: t => if p i h then (i : ℤ) else firstHitFrom p (i + 1) t

/-- `-1`-valued last hit of an indexed predicate, starting at index `i`. -/
def lastHitFrom (p : ℕ → String → Bool) (i : ℕ) : List String → ℤ
  | [] => -1
  | h :: t =>
    let r := lastHitFrom p (i + 1) t
    if r == -1 then (if p i h then (i : ℤ) else -1) else r

/-- Closed-form characterisation of `mapCols` (the amended claim C4):
`out_last`, `spd_name`, `fly_name` are first-match; `out_name` and
`out_tv` are last-match; the spread/fly last columns are first-match
over their own gates (spread 11-24, fly 21+) excluding only the index
at which that block's name column itself first resolves. -/
def mapColsSpec (headers : List String) : Cols :=
  let sn := firstHitFrom spdNameP 0 headers
  let fn := firstHitFrom flyNameP 0 headers
  { out_name := lastHitFrom outNameP 0 headers
    out_last := firstHitFrom outLastP 0 headers
    out_tv := lastHitFrom outTvP 0 headers
    spd_name := sn
    spd_last := firstHitFrom (fun j h => spdLastP j h && decide ((j : ℤ) ≠ sn)) 0 headers
    fly_name := fn
    fly_last := firstHitFrom (fun j h => flyLastP j h && decide ((j : ℤ) ≠ fn)) 0 headers }

/-- A header cell with none of the mapper's eight keywords (claim C5). -/
def noKw (h : String) : Bool :=
  !(hasSub (lowerStr h) "outright" || hasSub (lowerStr h) "symbol" || hasSub (lowerStr h) "last" ||
    hasSub (lowerStr h) "price" || hasSub (lowerStr h) "tick value" || hasSub (lowerStr h) "spread" ||
    hasSub (lowerStr h) "ltp" || hasSub (lowerStr h) "fly")

/-! ### The row normalizer (source lines 148-187) -/

inductive MType where
  | Outright
  | Spread
  | Fly
deriving DecidableEq

structure MarketRecord where
  instrument : String
  type : MType
  price : PyFloat
  tickValue : PyFloat
deriving DecidableEq

/-- Positional cell access.  The grids the fetcher supplies are
rectangular with all mapped columns present (the live path reads the
fixed region `A1:AZ300`); access outside that region is totalised with
a NaN cell. -/
def getCell (row : Row) (i : ℤ) : RawCell :=
  if h : 0 ≤ i ∧ i.toNat < row.length then row.get ⟨i.toNat, h.2⟩ else RawCell.nanv

/-- The source's name filter `if name and name.lower() not in ['nan', 'none', '']`.
Note there is no trimming. -/
def nameOk (s : String) : Bool :=
  s != "" && !(["nan", "none", ""].contains (lowerStr s))

def outRecs (cols : Cols) (row : Row) : List MarketRecord :=
  if cols.out_name != -1 then
    let name := cellStr (getCell row cols.out_name)
    if nameOk name then
      [{ instrument := name, type := .Outright,
         price := clean_float (getCell row cols.out_last),
         tickValue := if cols.out_tv != -1 then clean_float (getCell row cols.out_tv)
                      else .finite 100 }]
    else []
  else []

def spdRecs (cols : Cols) (row : Row) : List MarketRecord :=
  if cols.spd_name != -1 then
    let name := cellStr (getCell row cols.spd_name)
    if nameOk name then
      [{ instrument := name, type := .Spread,
         price := clean_float (getCell row cols.spd_last),
         tickValue := .finite 100 }]
    else []
  else []

def flyRecs (cols : Cols) (row : Row) : List MarketRecord :=
  if cols.fly_name != -1 then
    let name := cellStr (getCell row cols.fly_name)
    if nameOk name then
      [{ instrument := name, type := .Fly,
         price := clean_float (getCell row cols.fly_last),
         tickValue := .finite 100 }]
    else []
  else []

/-- One data row contributes its outright, spread and fly candidates in
block order, as in the source's per-row appends. -/
def rowRecords (cols : Cols) (row : Row) : List MarketRecord :=
  outRecs cols row ++ spdRecs cols row ++ flyRecs cols row

/-- `fetch_market_data` on an already-fetched raw grid: locate the
header row, strip the header strings, map columns, apply fallbacks, and
normalise every data row; all failures resolve to `([], message)`. -/
def fetch_market_data (grid : Grid) : List MarketRecord × String :=
  match findHeader grid with
  | .error m => ([], m)
  | .ok idx =>
    let headerRow := (grid.get? idx).getD []
    let headers := headerRow.map (fun c => trimStr (cellStr c))
    let dataRows := grid.drop (idx + 1)
    let cols := applyFallbacks (mapCols headers)
    (dataRows.flatMap (rowRecords cols), "Success")

/-- Header test as the spec's words describe it (claim C3): a
case-insensitive substring match for "Outrights"/"Outright"/"Spread".
Used only to compare the claim against the code's exact-token test. -/
def claimHeaderMatch (row : Row) : Bool :=
  row.any (fun c =>
    hasSub (lowerStr (cellStr c)) "outrights" || hasSub (lowerStr (cellStr c)) "outright" ||
    hasSub (lowerStr (cellStr c)) "spread")

/-! ### The position ledger and the Monitor-tab PnL pass (source lines 223-264) -/

structure Position where
  id : ℕ
  instrument : String
  lots : ℚ
  entry : ℚ
  tv : ℚ
deriving DecidableEq

structure PnLRow where
  id : ℕ
  instrument : String
  lots : ℚ
  entry : ℚ
  live : PyFloat
  pnl : PyFloat
deriving DecidableEq

/-- `df_market[df_market['Instrument'] == inst]` followed by `.iloc[0]`
in the Monitor tab: the first record, in emission order, whose
instrument matches. -/
def lookupInstrument (cat : List MarketRecord) (name : String) : Option MarketRecord :=
  (cat.filter (fun r => r.instrument == name)).head?

/-- The identical lookup in the Add Trade tab (source line 297). -/
def addTradeDetail (cat : List MarketRecord) (name : String) : Option MarketRecord :=
  (cat.filter (fun r => r.instrument == name)).head?

/-- The PnL row the Monitor tab appends for one position. -/
def monitorRow (cat : List MarketRecord) (p : Position) : PnLRow :=
  match lookupInstrument cat p.instrument with
  | some r =>
    let live := r.price
    let tv := if p.tv > 0 then PyFloat.finite p.tv else r.tickValue
    { id := p.id, instrument := p.instrument, lots := p.lots, entry := p.entry,
      live := live, pnl := ((live.sub (.finite p.entry)).mul (.finite p.lots)).mul tv }
  | Option.none =>
    { id := p.id, instrument := p.instrument, lots := p.lots, entry := p.entry,
      live := .finite 0, pnl := .finite 0 }

/-- One iteration of the Monitor loop: append the row; add its pnl to
the running total only in the found branch, as in the source. -/
def monitorStep (cat : List MarketRecord) (acc : List PnLRow × PyFloat) (p : Position) :
    List PnLRow × PyFloat :=
  match lookupInstrument cat p.instrument with
  | some _ => (acc.1 ++ [monitorRow cat p], acc.2.add (monitorRow cat p).pnl)
  | Option.none => (acc.1 ++ [monitorRow cat p], acc.2)

/-- The whole Monitor pass: the displayed rows and `total_pnl`. -/
def monitorPass (cat : List MarketRecord) (ps : List Position) : List PnLRow × PyFloat :=
  ps.foldl (monitorStep cat) ([], .finite 0)

/-! ## Helper lemmas -/

theorem PyFloat.add_zero_right (x : PyFloat) : x.add (.finite 0) = x := by
  cases x <;> simp [PyFloat.add]

theorem PyFloat.finite_sub (a b : ℚ) : (PyFloat.finite a).sub (.finite b) = .finite (a - b) := by
  simp [PyFloat.sub, PyFloat.add, PyFloat.neg, sub_eq_add_neg]

theorem PyFloat.finite_mul (a b : ℚ) : (PyFloat.finite a).mul (.finite b) = .finite (a * b) := rfl

theorem PyFloat.finite_add (a b : ℚ) : (PyFloat.finite a).add (.finite b) = .finite (a + b) := rfl

theorem monitorStep_eq (cat : List MarketRecord) (acc : List PnLRow × PyFloat) (p : Position) :
    monitorStep cat acc p = (acc.1 ++ [monitorRow cat p], acc.2.add (monitorRow cat p).pnl) := by
  cases h : lookupInstrument cat p.instrument <;>
    simp [monitorStep, monitorRow, h, PyFloat.add_zero_right]

theorem monitorFoldl_eq (cat : List MarketRecord) (ps : List Position) :
    ∀ acc : List PnLRow × PyFloat,
      ps.foldl (monitorStep cat) acc =
        (acc.1 ++ ps.map (monitorRow cat),
         (ps.map (fun p => (monitorRow cat p).pnl)).foldl PyFloat.add acc.2) := by
  induction ps with
  | nil => intro acc; simp
  | cons p t ih => intro acc; simp [monitorStep_eq, ih]

/-! ## Claim C1 -/

/-- C1, counterexample.  The claim's effective-tick-value rule ("override
when non-zero/non-absent") fails for a negative override: the source
tests `p['TV'] > 0`, so a position on "A" with lots 10, entry 69 and
override -5 against a catalog record (price 70, tick value 100) is
priced with the catalog tick value, pnl 1000, not with the override,
which would give (70 - 69) * 10 * (-5) = -50. -/
theorem c1_simple_pnl_cex :
    (monitorRow [⟨"A", MType.Outright, PyFloat.finite 70, PyFloat.finite 100⟩]
      ⟨1, "A", 10, 69, -5⟩).pnl = PyFloat.finite 1000 ∧
    (((PyFloat.finite 70).sub (PyFloat.finite 69)).mul (PyFloat.finite 10)).mul
      (PyFloat.finite (-5)) = PyFloat.finite (-50) ∧
    PyFloat.finite (1000 : ℚ) ≠ PyFloat.finite (-50 : ℚ) := by
  refine ⟨?_, ?_, ?_⟩
  · simp [monitorRow, lookupInstrument, List.filter]
    norm_num [PyFloat.finite_sub, PyFloat.finite_mul]
  · norm_num [PyFloat.finite_sub, PyFloat.finite_mul]
  · simp
    norm_num

/-- C1, amended: for every position whose instrument is in the catalog,
pnl = (live_price - entry) * lots * effective_tick_value, where the
effective tick value is the override when it is strictly positive and
otherwise (override zero, absent, or negative) the catalog record's
tick value; the spec's worked example (catalog CLZ5 Outright price 70.5
tick value 100, position lots 10 entry 69, no override) yields 1500. -/
theorem c1_simple_pnl_amended :
    (∀ (cat : List MarketRecord) (p : Position) (r : MarketRecord),
      lookupInstrument cat p.instrument = some r →
        (monitorRow cat p).live = r.price ∧
        (monitorRow cat p).pnl =
          ((r.price.sub (PyFloat.finite p.entry)).mul (PyFloat.finite p.lots)).mul
            (if p.tv > 0 then PyFloat.finite p.tv else r.tickValue)) ∧
    (monitorRow [⟨"CLZ5", MType.Outright, PyFloat.finite (141 / 2 : ℚ), PyFloat.finite 100⟩]
      ⟨1, "CLZ5", 10, 69, 0⟩).pnl = PyFloat.finite 1500 := by
  constructor
  · intro cat p r h
    simp [monitorRow, h]
  · simp [monitorRow, lookupInstrument, List.filter]
    norm_num [PyFloat.finite_sub, PyFloat.finite_mul]

/-- C1, witness: the amended theorem applied to a concrete catalog and
position with a positive override. -/
theorem c1_simple_pnl_witness :
    (monitorRow [⟨"A", MType.Outright, PyFloat.finite 71, PyFloat.finite 100⟩]
      ⟨2, "A", 10, 69, 50⟩).pnl = PyFloat.finite 1000 := by
  have h := (c1_simple_pnl_amended.1
    [⟨"A", MType.Outright, PyFloat.finite 71, PyFloat.finite 100⟩]
    ⟨2, "A", 10, 69, 50⟩
    ⟨"A", MType.Outright, PyFloat.finite 71, PyFloat.finite 100⟩
    (by simp [lookupInstrument, List.filter])).2
  rw [h]
  norm_num [PyFloat.finite_sub, PyFloat.finite_mul]

/-! ## Claim C2 -/

/-- C2, confirmed: a position whose instrument is absent from the
catalog gets the row (live 0, pnl 0); the pass never drops or aborts —
it emits exactly one row per position, in order — and the displayed
total equals the left-to-right sum of every emitted row's pnl, the
zero-valued missing entries included. -/
theorem c2_missing_lookup_degrades :
    ∀ (cat : List MarketRecord) (ps : List Position),
      (monitorPass cat ps).1 = ps.map (monitorRow cat) ∧
      (monitorPass cat ps).1.length = ps.length ∧
      (∀ p : Position, lookupInstrument cat p.instrument = Option.none →
        monitorRow cat p = ⟨p.id, p.instrument, p.lots, p.entry, PyFloat.finite 0, PyFloat.finite 0⟩) ∧
      (monitorPass cat ps).2 =
        ((monitorPass cat ps).1.map PnLRow.pnl).foldl PyFloat.add (PyFloat.finite 0) := by
  intro cat ps
  have h := monitorFoldl_eq cat ps ([], PyFloat.finite 0)
  refine ⟨?_, ?_, ?_, ?_⟩
  · simp [monitorPass, h]
  · simp [monitorPass, h]
  · intro p hp; simp [monitorRow, hp]
  · simp only [monitorPass, h, List.nil_append]
    congr 1
    simp [Function.comp]

/-- C2, witness: a two-position ledger whose second instrument is
missing from the catalog: the missing row degrades to zeros, both rows
are emitted, and the total is the sum including the zero entry. -/
theorem c2_missing_lookup_witness :
    monitorRow [⟨"A", MType.Outright, PyFloat.finite 70, PyFloat.finite 100⟩]
      ⟨7, "GONE", 3, 2, 0⟩ = ⟨7, "GONE", 3, 2, PyFloat.finite 0, PyFloat.finite 0⟩ ∧
    (monitorPass [⟨"A", MType.Outright, PyFloat.finite 70, PyFloat.finite 100⟩]
      [⟨1, "A", 10, 69, 0⟩, ⟨7, "GONE", 3, 2, 0⟩]).2 = PyFloat.finite 1000 := by
  constructor
  · exact (c2_missing_lookup_degrades
      [⟨"A", MType.Outright, PyFloat.finite 70, PyFloat.finite 100⟩] []).2.2.1
      ⟨7, "GONE", 3, 2, 0⟩ (by simp [lookupInstrument, List.filter])
  · have h := (c2_missing_lookup_degrades
      [⟨"A", MType.Outright, PyFloat.finite 70, PyFloat.finite 100⟩]
      [⟨1, "A", 10, 69, 0⟩, ⟨7, "GONE", 3, 2, 0⟩]).2.2.2
    rw [h]
    simp [monitorPass, monitorStep_eq, monitorRow, lookupInstrument, List.filter]
    norm_num [PyFloat.finite_sub, PyFloat.finite_mul, PyFloat.finite_add, PyFloat.add_zero_right]

/-! ## Header locator lemmas -/

theorem findHeaderFrom_ok (grid : Grid) :
    ∀ (fuel i tgt : ℕ) (row : Row), i ≤ tgt → tgt < i + fuel →
      grid[tgt]? = some row → headerMatch row = true →
      (∀ j, i ≤ j → j < tgt → (grid[j]?).map headerMatch ≠ some true) →
      findHeaderFrom grid i fuel = .ok tgt := by
  intro fuel
  induction fuel with
  | zero => intro i tgt row h1 h2; omega
  | succ n ih =>
    intro i tgt row h1 h2 hget hmatch hbefore
    by_cases heq : i = tgt
    · subst heq
      rw [findHeaderFrom, hget]
      simp [hmatch]
    · have hlt : i < tgt := lt_of_le_of_ne h1 heq
      have htlen : tgt < grid.length := (List.getElem?_eq_some_iff.mp hget).1
      have hilen : i < grid.length := lt_trans hlt htlen
      have hgi : grid[i]? = some grid[i] := List.getElem?_eq_getElem hilen
      have hfalse : headerMatch grid[i] = false := by
        have h3 := hbefore i le_rfl hlt
        rw [hgi] at h3
        simp only [Option.map_some', ne_eq, Option.some.injEq] at h3
        simpa using h3
      rw [findHeaderFrom, hgi]
      simp only [hfalse, Bool.false_eq_true, if_false]
      exact ih (i + 1) tgt row hlt (by omega) hget hmatch
        (fun j hj1 hj2 => hbefore j (by omega) hj2)

theorem findHeaderFrom_notFound (grid : Grid) :
    ∀ (fuel i : ℕ), i + fuel ≤ grid.length →
      (∀ j, i ≤ j → j < i + fuel → (grid[j]?).map headerMatch ≠ some true) →
      findHeaderFrom grid i fuel = .error headerNotFoundMsg := by
  intro fuel
  induction fuel with
  | zero => intro i _ _; rfl
  | succ n ih =>
    intro i hlen hall
    have hilen : i < grid.length := by omega
    have hgi : grid[i]? = some grid[i] := List.getElem?_eq_getElem hilen
    have hfalse : headerMatch grid[i] = false := by
      have h3 := hall i le_rfl (by omega)
      rw [hgi] at h3
      simp only [Option.map_some', ne_eq, Option.some.injEq] at h3
      simpa using h3
    rw [findHeaderFrom, hgi]
    simp only [hfalse, Bool.false_eq_true, if_false]
    exact ih (i + 1) (by omega) (fun j hj1 hj2 => hall j (by omega) (by omega))

/-! ## Claim C3 -/

/-- C3, counterexample.  The claim's canonical matching rule
(case-insensitive substring, tokens "Outrights"/"Outright"/"Spread")
would locate row 0 of a grid whose first row holds the cell
"outright"; the source's test is exact case-sensitive equality against
"Outrights" or "Spread" only, so it scans all 15 rows and reports the
header as not found. -/
theorem c3_header_locator_cex :
    claimHeaderMatch [RawCell.str "outright"] = true ∧
    headerMatch [RawCell.str "outright"] = false ∧
    findHeader ([RawCell.str "outright"] :: List.replicate 14 [RawCell.str "x"]) =
      .error headerNotFoundMsg := by
  refine ⟨by decide, by decide, by rfl⟩

/-- C3, amended: scanning at most the first 15 rows, the locator
returns the index of the first row one of whose string-cast cells is
exactly equal (case-sensitively) to "Outrights" or to "Spread"; the
bare token "Outright", other casings, and proper substring occurrences
do not match.  For a grid where row 3 contains the cell "Outrights" and
no earlier row matches, it returns index 3. -/
theorem c3_header_locator_amended :
    (∀ (grid : Grid) (tgt : ℕ) (row : Row), tgt < 15 →
      grid[tgt]? = some row → headerMatch row = true →
      (∀ j, j < tgt → (grid[j]?).map headerMatch ≠ some true) →
      findHeader grid = .ok tgt) ∧
    findHeader [[RawCell.str "junk"], [RawCell.str "stuff"], [RawCell.str "more"],
      [RawCell.str "Outrights", RawCell.str "Last"], [RawCell.str "CLZ5"]] = .ok 3 := by
  constructor
  · intro grid tgt row h1 h2 h3 h4
    exact findHeaderFrom_ok grid 15 0 tgt row (Nat.zero_le _) (by omega) h2 h3
      (fun j _ hj2 => h4 j hj2)
  · rfl

/-- C3, witness: the amended theorem applied to a concrete grid whose
row 2 is the first to contain the exact token "Outrights". -/
theorem c3_header_locator_witness :
    findHeader [[RawCell.str "a"], [RawCell.str "b"], [RawCell.str "Outrights"]] = .ok 2 := by
  exact c3_header_locator_amended.1
    [[RawCell.str "a"], [RawCell.str "b"], [RawCell.str "Outrights"]] 2
    [RawCell.str "Outrights"] (by decide) (by decide) (by decide) (by decide)

/-! ## Claim C9 -/

/-- C9, confirmed: the parse is a total function; every outcome that is
not a success carries an empty catalog together with the diagnostic
message produced by the failing stage; in particular a grid of at least
15 rows none of whose first 15 rows matches the header test yields the
empty catalog and the "Could not find 'Outrights' header row."
message, and any header-locator failure (including the IndexError text
surfaced by the enclosing try/except on a short grid) becomes
`([], message)` rather than an exception. -/
theorem c9_parse_never_throws :
    (∀ grid : Grid, (fetch_market_data grid).2 = "Success" ∨ (fetch_market_data grid).1 = []) ∧
    (∀ grid : Grid, 15 ≤ grid.length →
      (∀ j, j < 15 → (grid[j]?).map headerMatch ≠ some true) →
      fetch_market_data grid = ([], headerNotFoundMsg)) ∧
    (∀ (grid : Grid) (e : String), findHeader grid = .error e →
      fetch_market_data grid = ([], e)) := by
  refine ⟨?_, ?_, ?_⟩
  · intro grid
    cases h : findHeader grid with
    | error m => right; simp [fetch_market_data, h]
    | ok idx => left; simp [fetch_market_data, h]
  · intro grid hlen hall
    have h := findHeaderFrom_notFound grid 15 0 (by omega)
      (fun j _ hj2 => hall j (by omega))
    simp [fetch_market_data, findHeader, h]
  · intro grid e h
    simp [fetch_market_data, h]

/-- C9, witness: a 15-row grid with no header token resolves to the
empty catalog plus the diagnostic, via the theorem. -/
theorem c9_parse_never_throws_witness :
    fetch_market_data (List.replicate 15 [RawCell.str "x"]) = ([], headerNotFoundMsg) := by
  exact c9_parse_never_throws.2.1 (List.replicate 15 [RawCell.str "x"]) (by decide) (by decide)

/-! ## Column mapper lemmas -/

theorem natCast_beq_negOne (i : ℕ) : ((i : ℤ) == -1) = false := by
  simp only [beq_eq_false_iff_ne, ne_eq]
  omega

theorem firstHitFrom_ge (p : ℕ → String → Bool) :
    ∀ (l : List String) (i : ℕ),
      firstHitFrom p i l = -1 ∨ (i : ℤ) ≤ firstHitFrom p i l := by
  intro l
  induction l with
  | nil => intro i; left; rfl
  | cons h t ih =>
    intro i
    rw [firstHitFrom]
    by_cases hp : p i h
    · right; simp [hp]
    · simp only [hp, if_false]
      rcases ih (i + 1) with h1 | h1
      · left; exact h1
      · right; omega

theorem firstHitFrom_congr (p q : ℕ → String → Bool) :
    ∀ (l : List String) (i : ℕ),
      (∀ j h, i ≤ j → p j h = q j h) →
      firstHitFrom p i l = firstHitFrom q i l := by
  intro l
  induction l with
  | nil => intro i _; rfl
  | cons h t ih =>
    intro i hpq
    rw [firstHitFrom, firstHitFrom, hpq i h le_rfl, ih (i + 1) (fun j h hj => hpq j h (by omega))]

theorem mapColsGo_out_name (l : List String) :
    ∀ (i : ℕ) (c : Cols),
      (mapColsGo i c l).out_name =
        (if lastHitFrom outNameP i l == -1 then c.out_name else lastHitFrom outNameP i l) := by
  induction l with
  | nil => intro i c; simp [mapColsGo, lastHitFrom]
  | cons h t ih =>
    intro i c
    rw [mapColsGo, ih, lastHitFrom]
    by_cases hr : lastHitFrom outNameP (i + 1) t == -1 <;>
      by_cases hp : outNameP i h <;>
        simp [colsStep, hr, hp, natCast_beq_negOne]

theorem mapColsGo_out_last (l : List String) :
    ∀ (i : ℕ) (c : Cols),
      (mapColsGo i c l).out_last =
        (if c.out_last == -1 then firstHitFrom outLastP i l else c.out_last) := by
  induction l with
  | nil =>
    intro i c
    by_cases hc : c.out_last = -1 <;> simp [mapColsGo, firstHitFrom, hc]
  | cons h t ih =>
    intro i c
    rw [mapColsGo, ih, firstHitFrom]
    by_cases hc : c.out_last = -1 <;>
      by_cases hp : outLastP i h <;>
        simp [colsStep, hc, hp, natCast_beq_negOne]

theorem mapColsGo_out_tv (l : List String) :
    ∀ (i : ℕ) (c : Cols),
      (mapColsGo i c l).out_tv =
        (if lastHitFrom outTvP i l == -1 then c.out_tv else lastHitFrom outTvP i l) := by
  induction l with
  | nil => intro i c; simp [mapColsGo, lastHitFrom]
  | cons h t ih =>
    intro i c
    rw [mapColsGo, ih, lastHitFrom]
    by_cases hr : lastHitFrom outTvP (i + 1) t == -1 <;>
      by_cases hp : outTvP i h <;>
        simp [colsStep, hr, hp, natCast_beq_negOne]

theorem mapColsGo_spd_name (l : List String) :
    ∀ (i : ℕ) (c : Cols),
      (mapColsGo i c l).spd_name =
        (if c.spd_name == -1 then firstHitFrom spdNameP i l else c.spd_name) := by
  induction l with
  | nil =>
    intro i c
    by_cases hc : c.spd_name = -1 <;> simp [mapColsGo, firstHitFrom, hc]
  | cons h t ih =>
    intro i c
    rw [mapColsGo, ih, firstHitFrom]
    by_cases hc : c.spd_name = -1 <;>
      by_cases hp : spdNameP i h <;>
        simp [colsStep, hc, hp, natCast_beq_negOne]

theorem mapColsGo_fly_name (l : List String) :
    ∀ (i : ℕ) (c : Cols),
      (mapColsGo i c l).fly_name =
        (if c.fly_name == -1 then firstHitFrom flyNameP i l else c.fly_name) := by
  induction l with
  | nil =>
    intro i c
    by_cases hc : c.fly_name = -1 <;> simp [mapColsGo, firstHitFrom, hc]
  | cons h t ih =>
    intro i c
    rw [mapColsGo, ih, firstHitFrom]
    by_cases hc : c.fly_name = -1 <;>
      by_cases hp : flyNameP i h <;>
        simp [colsStep, hc, hp, natCast_beq_negOne]

theorem firstHitFrom_cons (p : ℕ → String → Bool) (i : ℕ) (h : String) (t : List String) :
    firstHitFrom p i (h :: t) = if p i h then (i : ℤ) else firstHitFrom p (i + 1) t := rfl

theorem mapColsGo_spd_last_pres (l : List String) :
    ∀ (i : ℕ) (c : Cols), c.spd_last ≠ -1 →
      (mapColsGo i c l).spd_last = c.spd_last := by
  induction l with
  | nil => intro i c _; rfl
  | cons h t ih =>
    intro i c hc
    rw [mapColsGo]
    have hc' : (colsStep i c h).spd_last = c.spd_last := by
      simp [colsStep, hc]
    rw [ih (i + 1) (colsStep i c h) (by rw [hc']; exact hc), hc']

theorem mapColsGo_spd_last_fixed (l : List String) :
    ∀ (i : ℕ) (c : Cols), c.spd_last = -1 → c.spd_name ≠ -1 → c.spd_name < (i : ℤ) →
      (mapColsGo i c l).spd_last = firstHitFrom spdLastP i l := by
  induction l with
  | nil => intro i c hc _ _; rw [mapColsGo, firstHitFrom, hc]
  | cons h t ih =>
    intro i c hc hn hlt
    rw [mapColsGo, firstHitFrom_cons]
    have hsn' : (colsStep i c h).spd_name = c.spd_name := by
      simp [colsStep, hn]
    by_cases hP : spdLastP i h
    · have hsl' : (colsStep i c h).spd_last = (i : ℤ) := by
        simp [colsStep, hc, hP]
        rw [if_neg (fun hcon => hn hcon.2)]
        exact hlt
      rw [mapColsGo_spd_last_pres t (i + 1) (colsStep i c h)
        (by rw [hsl']; intro hcon; omega), hsl', if_pos hP]
    · have hsl' : (colsStep i c h).spd_last = -1 := by
        simp [colsStep, hc, hP]
      rw [ih (i + 1) (colsStep i c h) hsl' (by rw [hsn']; exact hn)
        (by rw [hsn']; push_cast; omega), if_neg (by simp [hP])]

theorem mapColsGo_spd_last_main (l : List String) :
    ∀ (i : ℕ) (c : Cols), c.spd_last = -1 → c.spd_name = -1 →
      (mapColsGo i c l).spd_last =
        firstHitFrom (fun j h2 => spdLastP j h2 &&
          decide ((j : ℤ) ≠ firstHitFrom spdNameP i l)) i l := by
  induction l with
  | nil => intro i c hc _; rw [mapColsGo, firstHitFrom, hc]
  | cons h t ih =>
    intro i c hc hn
    rw [mapColsGo]
    by_cases hN : spdNameP i h
    · -- the spread name resolves at column i itself: the guard i > i blocks the
      -- last column here, and from i+1 on the exclusion is vacuous
      have he : firstHitFrom spdNameP i (h :: t) = (i : ℤ) := by
        rw [firstHitFrom_cons, if_pos hN]
      have hsn' : (colsStep i c h).spd_name = (i : ℤ) := by
        simp [colsStep, hN, hn]
      have hsl' : (colsStep i c h).spd_last = -1 := by
        simp [colsStep, hc, hn, hN]
      rw [mapColsGo_spd_last_fixed t (i + 1) (colsStep i c h) hsl'
        (by rw [hsn']; intro hcon; omega)
        (by rw [hsn']; push_cast; omega)]
      simp only [he]
      rw [firstHitFrom_cons, if_neg (by simp)]
      exact firstHitFrom_congr _ _ t (i + 1)
        (fun j h2 hj => by
          have hne : (j : ℤ) ≠ (i : ℤ) := by omega
          simp [hne])
    · have he : firstHitFrom spdNameP i (h :: t) = firstHitFrom spdNameP (i + 1) t := by
        rw [firstHitFrom_cons, if_neg hN]
      have hsn' : (colsStep i c h).spd_name = -1 := by
        simp [colsStep, hN, hn]
      have hm := firstHitFrom_ge spdNameP t (i + 1)
      by_cases hP : spdLastP i h
      · have hne : (i : ℤ) ≠ firstHitFrom spdNameP (i + 1) t := by
          rcases hm with h1 | h1 <;> omega
        have hsl' : (colsStep i c h).spd_last = (i : ℤ) := by
          simp [colsStep, hc, hn, hP]
          rw [if_neg hN]
          omega
        rw [mapColsGo_spd_last_pres t (i + 1) (colsStep i c h)
          (by rw [hsl']; intro hcon; omega), hsl']
        simp only [he]
        rw [firstHitFrom_cons, if_pos (by simp [hP, hne])]
      · have hsl' : (colsStep i c h).spd_last = -1 := by
          simp [colsStep, hc, hP]
        rw [ih (i + 1) (colsStep i c h) hsl' hsn']
        simp only [he]
        rw [firstHitFrom_cons, if_neg (by simp [hP])]

theorem mapColsGo_fly_last_pres (l : List String) :
    ∀ (i : ℕ) (c : Cols), c.fly_last ≠ -1 →
      (mapColsGo i c l).fly_last = c.fly_last := by
  induction l with
  | nil => intro i c _; rfl
  | cons h t ih =>
    intro i c hc
    rw [mapColsGo]
    have hc' : (colsStep i c h).fly_last = c.fly_last := by
      simp [colsStep, hc]
    rw [ih (i + 1) (colsStep i c h) (by rw [hc']; exact hc), hc']

theorem mapColsGo_fly_last_fixed (l : List String) :
    ∀ (i : ℕ) (c : Cols), c.fly_last = -1 → c.fly_name ≠ -1 → c.fly_name < (i : ℤ) →
      (mapColsGo i c l).fly_last = firstHitFrom flyLastP i l := by
  induction l with
  | nil => intro i c hc _ _; rw [mapColsGo, firstHitFrom, hc]
  | cons h t ih =>
    intro i c hc hn hlt
    rw [mapColsGo, firstHitFrom_cons]
    have hsn' : (colsStep i c h).fly_name = c.fly_name := by
      simp [colsStep, hn]
    by_cases hP : flyLastP i h
    · have hsl' : (colsStep i c h).fly_last = (i : ℤ) := by
        simp [colsStep, hc, hP]
        rw [if_neg (fun hcon => hn hcon.2)]
        exact hlt
      rw [mapColsGo_fly_last_pres t (i + 1) (colsStep i c h)
        (by rw [hsl']; intro hcon; omega), hsl', if_pos hP]
    · have hsl' : (colsStep i c h).fly_last = -1 := by
        simp [colsStep, hc, hP]
      rw [ih (i + 1) (colsStep i c h) hsl' (by rw [hsn']; exact hn)
        (by rw [hsn']; push_cast; omega), if_neg (by simp [hP])]

theorem mapColsGo_fly_last_main (l : List String) :
    ∀ (i : ℕ) (c : Cols), c.fly_last = -1 → c.fly_name = -1 →
      (mapColsGo i c l).fly_last =
        firstHitFrom (fun j h2 => flyLastP j h2 &&
          decide ((j : ℤ) ≠ firstHitFrom flyNameP i l)) i l := by
  induction l with
  | nil => intro i c hc _; rw [mapColsGo, firstHitFrom, hc]
  | cons h t ih =>
    intro i c hc hn
    rw [mapColsGo]
    by_cases hN : flyNameP i h
    · have he : firstHitFrom flyNameP i (h :: t) = (i : ℤ) := by
        rw [firstHitFrom_cons, if_pos hN]
      have hsn' : (colsStep i c h).fly_name = (i : ℤ) := by
        simp [colsStep, hN, hn]
      have hsl' : (colsStep i c h).fly_last = -1 := by
        simp [colsStep, hc, hn, hN]
      rw [mapColsGo_fly_last_fixed t (i + 1) (colsStep i c h) hsl'
        (by rw [hsn']; intro hcon; omega)
        (by rw [hsn']; push_cast; omega)]
      simp only [he]
      rw [firstHitFrom_cons, if_neg (by simp)]
      exact firstHitFrom_congr _ _ t (i + 1)
        (fun j h2 hj => by
          have hne : (j : ℤ) ≠ (i : ℤ) := by omega
          simp [hne])
    · have he : firstHitFrom flyNameP i (h :: t) = firstHitFrom flyNameP (i + 1) t := by
        rw [firstHitFrom_cons, if_neg hN]
      have hsn' : (colsStep i c h).fly_name = -1 := by
        simp [colsStep, hN, hn]
      have hm := firstHitFrom_ge flyNameP t (i + 1)
      by_cases hP : flyLastP i h
      · have hne : (i : ℤ) ≠ firstHitFrom flyNameP (i + 1) t := by
          rcases hm with h1 | h1 <;> omega
        have hsl' : (colsStep i c h).fly_last = (i : ℤ) := by
          simp [colsStep, hc, hn, hP]
          rw [if_neg hN]
          omega
        rw [mapColsGo_fly_last_pres t (i + 1) (colsStep i c h)
          (by rw [hsl']; intro hcon; omega), hsl']
        simp only [he]
        rw [firstHitFrom_cons, if_pos (by simp [hP, hne])]
      · have hsl' : (colsStep i c h).fly_last = -1 := by
          simp [colsStep, hc, hP]
        rw [ih (i + 1) (colsStep i c h) hsl' hsn']
        simp only [he]
        rw [firstHitFrom_cons, if_neg (by simp [hP])]

theorem colsStep_noKw (i : ℕ) (c : Cols) (h : String) (hk : noKw h = true) :
    colsStep i c h = c := by
  simp only [noKw, Bool.not_eq_true', Bool.or_eq_false_iff] at hk
  simp [colsStep, outNameP, outLastP, outTvP, spdNameP, spdLastP, flyNameP, flyLastP, hk]

theorem mapColsGo_noKw (l : List String) :
    ∀ (i : ℕ) (c : Cols), (∀ h ∈ l, noKw h = true) → mapColsGo i c l = c := by
  induction l with
  | nil => intro i c _; rfl
  | cons h t ih =>
    intro i c hall
    rw [mapColsGo, colsStep_noKw i c h (hall h (by simp))]
    exact ih (i + 1) c (fun x hx => hall x (by simp [hx]))

/-! ## Claim C4 -/

/-- C4, counterexample.  The outright-name field is not first-match:
the source reassigns `cols['out_name'] = idx` on every keyword hit in
the first 10 columns, so with two matching headers the second wins; the
first match is at index 0, yet the mapper reports 1. -/
theorem c4_column_mapper_cex :
    firstHitFrom outNameP 0 ["outright a", "outright b"] = 0 ∧
    (mapCols ["outright a", "outright b"]).out_name = 1 := by
  refine ⟨by decide, by decide⟩

/-- C4, amended: the keyword scan resolves `out_last`, `spd_name` and
`fly_name` first-match within their gates (outright name/last in
columns 0-9, spread name in 11-19, fly fields in 21+), but `out_name`
(columns 0-9) and `out_tv` (columns 0-14) are last-match — every later
keyword hit overwrites them; the spread last column is gated to columns
11-24 (not 11-19); and the spread/fly "last"/"ltp" guard compares
against the current name-column value, `-1` when unresolved, so the
only excluded index is the one where that block's name column itself
first resolves, and a last column may be assigned before its name
column. -/
theorem c4_column_mapper_amended :
    ∀ headers : List String, mapCols headers = mapColsSpec headers := by
  intro hs
  have hon := mapColsGo_out_name hs 0 initCols
  have hol := mapColsGo_out_last hs 0 initCols
  have hot := mapColsGo_out_tv hs 0 initCols
  have hsn := mapColsGo_spd_name hs 0 initCols
  have hsl := mapColsGo_spd_last_main hs 0 initCols rfl rfl
  have hfn := mapColsGo_fly_name hs 0 initCols
  have hfl := mapColsGo_fly_last_main hs 0 initCols rfl rfl
  refine Cols.ext ?_ ?_ ?_ ?_ ?_ ?_ ?_
  · rw [mapCols, hon]
    by_cases hr : lastHitFrom outNameP 0 hs == -1 <;> simp_all [mapColsSpec, initCols]
  · rw [mapCols, hol]
    simp [mapColsSpec, initCols]
  · rw [mapCols, hot]
    by_cases hr : lastHitFrom outTvP 0 hs == -1 <;> simp_all [mapColsSpec, initCols]
  · rw [mapCols, hsn]
    simp [mapColsSpec, initCols]
  · rw [mapCols, hsl]
    simp [mapColsSpec]
  · rw [mapCols, hfn]
    simp [mapColsSpec, initCols]
  · rw [mapCols, hfl]
    simp [mapColsSpec]

/-! ## Claim C5 -/

/-- C5, confirmed: a header row in which no cell contains any of the
mapper's keywords leaves every field unresolved, and the fallback phase
then returns exactly outright-name=1, outright-last=3,
outright-tick-value=14, spread-name=13, spread-last=14, fly-name=25,
fly-last=26 — a complete column map. -/
theorem c5_fallback_determinism :
    ∀ headers : List String, (∀ h ∈ headers, noKw h = true) →
      applyFallbacks (mapCols headers) = fallbackCols := by
  intro hs hall
  rw [mapCols, mapColsGo_noKw hs 0 initCols hall]
  rfl

/-- C5, witness: the theorem applied to a keyword-free header row. -/
theorem c5_fallback_determinism_witness :
    applyFallbacks (mapCols ["alpha", "beta"]) = fallbackCols :=
  c5_fallback_determinism ["alpha", "beta"] (by decide)

/-! ## Claim C6 -/

theorem lowerStr_eq_empty_iff (s : String) : lowerStr s = "" ↔ s = "" := by
  cases s with
  | mk data =>
    constructor
    · intro h
      have : data.map Char.toLower = [] := congrArg String.data h
      simp only [List.map_eq_nil_iff] at this
      rw [this]
    · intro h
      rw [h]
      rfl

theorem nameOk_iff (s : String) :
    nameOk s = true ↔ (s ≠ "" ∧ lowerStr s ≠ "nan" ∧ lowerStr s ≠ "none") := by
  simp only [nameOk, Bool.and_eq_true, bne_iff_ne, ne_eq, Bool.not_eq_true',
    List.contains_cons, Bool.or_eq_false_iff, beq_eq_false_iff_ne]
  constructor
  · rintro ⟨h1, h2, h3, h4⟩
    exact ⟨h1, h2, h3⟩
  · rintro ⟨h1, h2, h3⟩
    exact ⟨h1, h2, h3, fun h => h1 ((lowerStr_eq_empty_iff s).mp h), rfl⟩

/-- C6, counterexample.  The source never trims the name cell: a
whitespace-only name cell is truthy and its lower-case form is not a
sentinel, so the outright block DOES emit a record (instrument " "),
contrary to the claim's "non-empty after trimming" rule.  (The
tick-value cell here is a pandas blank, hence the NaN tick value.) -/
theorem c6_name_filter_cex :
    trimStr " " = "" ∧
    rowRecords fallbackCols
        ([RawCell.nanv, RawCell.str " ", RawCell.nanv, RawCell.num 5] ++
          List.replicate 23 RawCell.nanv) =
      [⟨" ", MType.Outright, PyFloat.finite 5, PyFloat.nan⟩] := by
  refine ⟨by decide, by rfl⟩

/-- C6, amended: a block emits a record for a data row exactly when the
block's name column is resolved and the name cell's Python string form
is non-empty (no trimming) with lower-case form different from "nan"
and "none"; in particular "" (empty), "NaN" and "None" cells emit
nothing, but a whitespace-only cell does emit. -/
theorem c6_name_filter_amended :
    ∀ (cols : Cols) (row : Row),
      (outRecs cols row = [] ↔ cols.out_name = -1 ∨
        cellStr (getCell row cols.out_name) = "" ∨
        lowerStr (cellStr (getCell row cols.out_name)) = "nan" ∨
        lowerStr (cellStr (getCell row cols.out_name)) = "none") ∧
      (spdRecs cols row = [] ↔ cols.spd_name = -1 ∨
        cellStr (getCell row cols.spd_name) = "" ∨
        lowerStr (cellStr (getCell row cols.spd_name)) = "nan" ∨
        lowerStr (cellStr (getCell row cols.spd_name)) = "none") ∧
      (flyRecs cols row = [] ↔ cols.fly_name = -1 ∨
        cellStr (getCell row cols.fly_name) = "" ∨
        lowerStr (cellStr (getCell row cols.fly_name)) = "nan" ∨
        lowerStr (cellStr (getCell row cols.fly_name)) = "none") := by
  intro cols row
  refine ⟨?_, ?_, ?_⟩
  · by_cases h1 : cols.out_name = -1
    · simp [outRecs, h1]
    · by_cases h2 : nameOk (cellStr (getCell row cols.out_name))
      · have h3 := (nameOk_iff _).mp h2
        simp only [outRecs, if_pos (by simp [bne_iff_ne, h1] : (cols.out_name != -1) = true),
          if_pos h2]
        simp [h1]
        tauto
      · have h3 : ¬ (cellStr (getCell row cols.out_name) ≠ "" ∧
            lowerStr (cellStr (getCell row cols.out_name)) ≠ "nan" ∧
            lowerStr (cellStr (getCell row cols.out_name)) ≠ "none") :=
          fun hcon => h2 ((nameOk_iff _).mpr hcon)
        simp only [outRecs, if_pos (by simp [bne_iff_ne, h1] : (cols.out_name != -1) = true),
          if_neg h2]
        simp
        tauto
  · by_cases h1 : cols.spd_name = -1
    · simp [spdRecs, h1]
    · by_cases h2 : nameOk (cellStr (getCell row cols.spd_name))
      · have h3 := (nameOk_iff _).mp h2
        simp only [spdRecs, if_pos (by simp [bne_iff_ne, h1] : (cols.spd_name != -1) = true),
          if_pos h2]
        simp [h1]
        tauto
      · have h3 : ¬ (cellStr (getCell row cols.spd_name) ≠ "" ∧
            lowerStr (cellStr (getCell row cols.spd_name)) ≠ "nan" ∧
            lowerStr (cellStr (getCell row cols.spd_name)) ≠ "none") :=
          fun hcon => h2 ((nameOk_iff _).mpr hcon)
        simp only [spdRecs, if_pos (by simp [bne_iff_ne, h1] : (cols.spd_name != -1) = true),
          if_neg h2]
        simp
        tauto
  · by_cases h1 : cols.fly_name = -1
    · simp [flyRecs, h1]
    · by_cases h2 : nameOk (cellStr (getCell row cols.fly_name))
      · have h3 := (nameOk_iff _).mp h2
        simp only [flyRecs, if_pos (by simp [bne_iff_ne, h1] : (cols.fly_name != -1) = true),
          if_pos h2]
        simp [h1]
        tauto
      · have h3 : ¬ (cellStr (getCell row cols.fly_name) ≠ "" ∧
            lowerStr (cellStr (getCell row cols.fly_name)) ≠ "nan" ∧
            lowerStr (cellStr (getCell row cols.fly_name)) ≠ "none") :=
          fun hcon => h2 ((nameOk_iff _).mpr hcon)
        simp only [flyRecs, if_pos (by simp [bne_iff_ne, h1] : (cols.fly_name != -1) = true),
          if_neg h2]
        simp
        tauto

/-! ## Claim C7 -/

/-- C7, counterexample.  `float("inf")` does not raise, so the coercion
passes the infinity through: the result on the cell "inf" is not a
finite float, contradicting the claim that every cell yields a finite
float. -/
theorem c7_coercion_cex :
    clean_float (RawCell.str "inf") = PyFloat.inf ∧
    (clean_float (RawCell.str "inf")).isFinite = false := by
  refine ⟨by rfl, by rfl⟩

/-- C7, amended: the coercion is a total function (never raises): it
yields 0.0 on any string parse failure, passes numeric cells through
unchanged, and maps a `None` cell to 0.0; but its result is not always
finite — a NaN cell (a blank under the static pandas path) yields NaN,
and strings denoting infinities or NaN (e.g. "inf") pass through as
such non-finite values. -/
theorem c7_coercion_amended :
    (∀ s : String, pyFloat? s = Option.none → clean_float (RawCell.str s) = PyFloat.finite 0) ∧
    (∀ q : ℚ, clean_float (RawCell.num q) = PyFloat.finite q) ∧
    clean_float RawCell.null = PyFloat.finite 0 ∧
    clean_float RawCell.nanv = PyFloat.nan := by
  refine ⟨?_, fun q => rfl, rfl, rfl⟩
  intro s hs
  simp [clean_float, hs]

/-- C7, witness: the amended theorem applied to the non-numeric string
"abc", whose parse fails. -/
theorem c7_coercion_witness :
    clean_float (RawCell.str "abc") = PyFloat.finite 0 :=
  c7_coercion_amended.1 "abc" (by rfl)

/-! ## Claim C8 -/

/-- C8, confirmed: every emitted Spread or Fly record carries the fixed
tick value 100.0 regardless of sheet content, while an emitted Outright
record's tick value is the coerced mapped tick-value column when that
column is resolvable and 100.0 otherwise. -/
theorem c8_tick_value :
    ∀ (cols : Cols) (row : Row) (r : MarketRecord), r ∈ rowRecords cols row →
      ((r.type = MType.Spread ∨ r.type = MType.Fly) → r.tickValue = PyFloat.finite 100) ∧
      (r.type = MType.Outright →
        r.tickValue = (if cols.out_tv != -1 then clean_float (getCell row cols.out_tv)
                       else PyFloat.finite 100)) := by
  intro cols row r hr
  simp only [rowRecords, List.mem_append] at hr
  rcases hr with (hr | hr) | hr
  · simp only [outRecs] at hr
    split_ifs at hr with h1 h2 h3
    · rw [List.mem_singleton] at hr
      subst hr
      exact ⟨by rintro (h | h) <;> simp at h, fun _ => by simp [h3]⟩
    · rw [List.mem_singleton] at hr
      subst hr
      exact ⟨by rintro (h | h) <;> simp at h, fun _ => by simp [h3]⟩
    · simp at hr
    · simp at hr
  · simp only [spdRecs] at hr
    split_ifs at hr with h1 h2
    · rw [List.mem_singleton] at hr
      subst hr
      exact ⟨fun _ => rfl, by intro h; simp at h⟩
    · simp at hr
    · simp at hr
  · simp only [flyRecs] at hr
    split_ifs at hr with h1 h2
    · rw [List.mem_singleton] at hr
      subst hr
      exact ⟨fun _ => rfl, by intro h; simp at h⟩
    · simp at hr
    · simp at hr

/-- C8, witness: the theorem applied to a concrete data row emitting one
spread record, whose tick value is the fixed 100.0. -/
theorem c8_tick_value_witness :
    (⟨"SPD", MType.Spread, PyFloat.finite 3, PyFloat.finite 100⟩ : MarketRecord).tickValue =
      PyFloat.finite 100 := by
  have hmem : (⟨"SPD", MType.Spread, PyFloat.finite 3, PyFloat.finite 100⟩ : MarketRecord) ∈
      rowRecords fallbackCols (List.replicate 13 RawCell.nanv ++ [RawCell.str "SPD", RawCell.num 3]) := by
    have h : rowRecords fallbackCols
        (List.replicate 13 RawCell.nanv ++ [RawCell.str "SPD", RawCell.num 3]) =
        [⟨"SPD", MType.Spread, PyFloat.finite 3, PyFloat.finite 100⟩] := by rfl
    rw [h]
    exact List.mem_singleton.mpr rfl
  exact (c8_tick_value fallbackCols
    (List.replicate 13 RawCell.nanv ++ [RawCell.str "SPD", RawCell.num 3]) _ hmem).1 (Or.inl rfl)

/-! ## Claim C10 -/

/-- C10, confirmed: the catalog is the emission-ordered list of records
(the parse appends and never deduplicates, so later records with the
same instrument are retained after the first), and both lookup sites —
the Monitor PnL loop and the Add Trade detail display — resolve a name
to the FIRST record in emission order: filtering keeps the first match
and all later duplicates, and both lookups return that first match. -/
theorem c10_duplicate_first_lookup :
    ∀ (pre post : List MarketRecord) (r : MarketRecord) (name : String),
      r.instrument = name → (∀ x ∈ pre, x.instrument ≠ name) →
      (pre ++ r :: post).filter (fun x => x.instrument == name) =
        r :: post.filter (fun x => x.instrument == name) ∧
      lookupInstrument (pre ++ r :: post) name = some r ∧
      addTradeDetail (pre ++ r :: post) name = some r := by
  intro pre post r name hr hpre
  have h1 : pre.filter (fun x => x.instrument == name) = [] := by
    rw [List.filter_eq_nil_iff]
    intro a ha
    simp [hpre a ha]
  have hfil : (pre ++ r :: post).filter (fun x => x.instrument == name) =
      r :: post.filter (fun x => x.instrument == name) := by
    rw [List.filter_append, h1, List.nil_append, List.filter_cons_of_pos (by simp [hr])]
  exact ⟨hfil, by rw [lookupInstrument, hfil]; rfl, by rw [addTradeDetail, hfil]; rfl⟩

/-- C10, witness: a catalog carrying two records named "X"; both lookups
return the first of them (the Outright at price 2), and the filtered
view retains the later duplicate as well. -/
theorem c10_duplicate_first_lookup_witness :
    lookupInstrument
      [⟨"Y", MType.Outright, PyFloat.finite 1, PyFloat.finite 100⟩,
       ⟨"X", MType.Outright, PyFloat.finite 2, PyFloat.finite 100⟩,
       ⟨"X", MType.Spread, PyFloat.finite 3, PyFloat.finite 100⟩] "X" =
      some ⟨"X", MType.Outright, PyFloat.finite 2, PyFloat.finite 100⟩ :=
  (c10_duplicate_first_lookup
    [⟨"Y", MType.Outright, PyFloat.finite 1, PyFloat.finite 100⟩]
    [⟨"X", MType.Spread, PyFloat.finite 3, PyFloat.finite 100⟩]
    ⟨"X", MType.Outright, PyFloat.finite 2, PyFloat.finite 100⟩ "X" rfl
    (by intro x hx; rw [List.mem_singleton] at hx; subst hx; decide)).2.1
